import Mathlib

/-!
# Verification of the git-tag action core (`src/main.ts`)

This file gives a shallow embedding of the release-decision core of the
action and proves the specified properties about it.

The embedding models:

* the semantic-version utility the action delegates to (`semver.valid`,
  `semver.compare`, `semver.inc`) on the fragment of the semver grammar the
  action exercises: an optional leading `v` followed by a
  `major.minor.patch` triple of decimal numerals without leading zeros.
  Pre-release/build metadata is not modelled; none of the verified
  behaviours depend on it, and the action itself only ever produces plain
  release triples.
* the JavaScript array sort used by `getLatestTag`: a comparator-driven
  stable sort (ECMAScript requires `Array.prototype.sort` to be stable).
* the collaborator calls (pull-request lookup, tag listing, ref creation)
  as an explicit environment `Env` plus a trace of `Call`s, so that the
  "collaborator X is never invoked" properties are statable.

Fallible code (`throw new Error(msg)`) is embedded as `Except String`,
carrying the exact message strings of the source.
-/

/-! ## Decimal numerals -/

/-- The character for a decimal digit `d < 10`. -/
def digitChar (d : Nat) : Char := Char.ofNat (48 + d)

/-- Fuel-driven most-significant-first decimal rendering of a natural
number (the JavaScript `Number`-to-string conversion for the sizes
involved). `fuel > n` suffices. -/
def natToDigitsAux : Nat → Nat → List Char → List Char
  | 0, _, acc => acc
  | fuel + 1, n, acc =>
    if n < 10 then digitChar (n % 10) :: acc
    else natToDigitsAux fuel (n / 10) (digitChar (n % 10) :: acc)

/-- Decimal digit string of a natural number. -/
def natDigits (n : Nat) : List Char := natToDigitsAux (n + 1) n []

/-- Parse a semver numeric identifier: a non-empty digit string with no
leading zero (the `(0|[1-9]\d*)` production of the semver grammar). -/
def parseNumId (cs : List Char) : Option Nat :=
  if cs = [] then none
  else if ¬ cs.all Char.isDigit then none
  else if cs.head? = some '0' ∧ 1 < cs.length then none
  else some (cs.foldl (fun acc c => acc * 10 + (c.toNat - 48)) 0)

/-! ## Semver triples -/

/-- Split a character list on a separator character. -/
def splitOnChar (sep : Char) : List Char → List (List Char)
  | [] => [[]]
  | c :: cs =>
    match splitOnChar sep cs with
    | [] => [[]]
    | g :: gs => if c = sep then [] :: g :: gs else (c :: g) :: gs

/-- Drop the optional leading `v` the semver grammar allows. -/
def stripV (cs : List Char) : List Char :=
  match cs with
  | c :: rest => if c = 'v' then rest else c :: rest
  | [] => []

/-- Parse a version string (as characters) into its
`(major, minor, patch)` triple, or `none` when it is not a valid semver
(`semver.valid(s) === null` in the source's terms). -/
def parseSemverChars (cs : List Char) : Option (Nat × Nat × Nat) :=
  match (splitOnChar '.' (stripV cs)).map parseNumId with
  | [some a, some b, some c] => some (a, b, c)
  | _ => none

/-- `semver.parse` / `semver.valid` on the modelled fragment. -/
def parseSemver (s : String) : Option (Nat × Nat × Nat) := parseSemverChars s.data

/-- `semver.valid(s) !== null`. -/
def semverValid (s : String) : Bool := (parseSemver s).isSome

/-- Three-way comparison of naturals, as the `Int` sign JavaScript
comparators use. -/
def natCmp (a b : Nat) : Int := if a < b then -1 else if b < a then 1 else 0

/-- Lexicographic three-way comparison of version triples: numeric major,
then minor, then patch. -/
def triCmp (u v : Nat × Nat × Nat) : Int :=
  if natCmp u.1 v.1 ≠ 0 then natCmp u.1 v.1
  else if natCmp u.2.1 v.2.1 ≠ 0 then natCmp u.2.1 v.2.1
  else natCmp u.2.2 v.2.2

/-- `semver.compare` on the modelled fragment. The library throws on an
invalid version; every call site in the action compares only strings that
passed `semver.valid`, so the default value for unparsable input is
irrelevant to the embedded behaviour. -/
def semverCompare (x y : String) : Int :=
  triCmp ((parseSemver x).getD (0, 0, 0)) ((parseSemver y).getD (0, 0, 0))

/-- Render a version triple back to its canonical string (what
`semver.inc` returns: no `v` prefix). -/
def renderSemverChars (v : Nat × Nat × Nat) : List Char :=
  natDigits v.1 ++ '.' :: natDigits v.2.1 ++ '.' :: natDigits v.2.2

/-- String form of `renderSemverChars`. -/
def renderSemver (v : Nat × Nat × Nat) : String := ⟨renderSemverChars v⟩

/-! ## The action's vocabulary (`src/main.ts` lines 9-14) -/

def patch : String := "patch"
def minor : String := "minor"
def major : String := "major"
def noRelease : String := "no-release"

def validLabels : List String := [patch, minor, major, noRelease]

/-! ## Data model

A pull request is consumed by the core only through its label names. -/

structure PullRequest where
  labels : List String
deriving DecidableEq, Repr

/-- The collaborator calls the core can issue, recorded as a trace so that
"collaborator never invoked" properties are statable. -/
inductive Call where
  | listPRs
  | getPullRequest
  | listTags
  | createRef (tag : String)
deriving DecidableEq, Repr

/-- The environment of one invocation: everything the hosting platform and
the repository supply. `payloadPullRequest` is `some pr` exactly when the
trigger payload carries a pull request (validate-only mode), in which case
`pr` is also what the by-number fetch returns; `associatedPRs` is the
drained result of the pulls-for-commit query; `repoTags` the drained,
paginated tag listing. -/
structure Env where
  sha : String
  associatedPRs : List PullRequest
  repoTags : List String
  initialTag : String
  payloadPullRequest : Option PullRequest
deriving DecidableEq, Repr

/-- Outcome of one invocation: the successful run's emitted named outputs,
or the failure report `core.setFailed` receives. -/
inductive Outcome where
  | success (outputs : List (String × String))
  | failed (msg : String)
deriving DecidableEq, Repr

/-! ## The embedded source functions -/

/-- `validLabels.join(', ')`. -/
def labelsJoined : String := String.intercalate ", " validLabels

/-- Message of the missing-label error (`main.ts` line 19). -/
def missingLabelMsg : String :=
  s!"Please set one of the following label : {labelsJoined}"

/-- Message of the ambiguous-label error (`main.ts` line 23). -/
def exactlyOneLabelMsg : String := "Exactly one label must be set"

/-- `validatePullRequestLabel` (`main.ts` lines 16-24). -/
def validatePullRequestLabel (pr : PullRequest) : Except String Unit :=
  if ¬ pr.labels.any (fun it => validLabels.contains it) then
    .error missingLabelMsg
  else if (pr.labels.filter (fun it => validLabels.contains it)).length ≠ 1 then
    .error exactlyOneLabelMsg
  else .ok ()

/-- Message of the no-associated-pull-request error (`main.ts` line 44). -/
def noPullRequestMsg (sha : String) : String :=
  s!"Cannot find any Pull Request associated with {sha}"

/-- Message of the ambiguous-associated-pull-request error
(`main.ts` line 48). -/
def multiplePullRequestsMsg (sha : String) : String :=
  s!"Multiple Pull Requests found for {sha}"

/-- `pullRequestFromCommitSha` (`main.ts` lines 26-51), over the drained
result of the pulls-for-commit query: length 0 fails, length other than 1
fails, otherwise element 0 is returned. -/
def pullRequestFromCommitSha (prList : List PullRequest) (sha : String) :
    Except String PullRequest :=
  match prList with
  | [] => .error (noPullRequestMsg sha)
  | [pr] => .ok pr
  | _ :: _ :: _ => .error (multiplePullRequestsMsg sha)

/-- One stable-insertion step of the JavaScript sort: `x` goes before the
first element `y` with `cmp x y < 0`, after every earlier one. -/
def jsInsert (cmp : String → String → Int) (x : String) :
    List String → List String
  | [] => [x]
  | y :: ys => if cmp x y < 0 then x :: y :: ys else y :: jsInsert cmp x ys

/-- Comparator-driven stable sort, as ECMAScript specifies
`Array.prototype.sort` (ascending in `cmp`, equal elements kept in input
order). -/
def jsStableSort (cmp : String → String → Int) (l : List String) :
    List String :=
  l.foldl (fun acc x => jsInsert cmp x acc) []

/-- `getLatestTag` (`main.ts` lines 53-69), over the drained tag listing.
The pagination mapper keeps only names with `semver.valid(name) !== null`;
the list is then sorted ascending with `semver.compare` and element `[0]`
— the sort's first element — is returned, `null` when empty. -/
def getLatestTag (tagNames : List String) : Option String :=
  match jsStableSort (fun x y => semverCompare x y)
      (tagNames.filter (fun tag => semverValid tag)) with
  | [] => none
  | t :: _ => some t

/-- `semver.inc` restricted to the release types the action can pass
(`patch`, `minor`, `major`; any other argument makes the library return
`null`, as does an unparsable base). -/
def semverIncTriple (v : Nat × Nat × Nat) (bump : String) :
    Option (Nat × Nat × Nat) :=
  if bump = major then some (v.1 + 1, 0, 0)
  else if bump = minor then some (v.1, v.2.1 + 1, 0)
  else if bump = patch then some (v.1, v.2.1, v.2.2 + 1)
  else none

/-- `semver.inc(tag, bump)`: parse, bump the triple, render canonically. -/
def semverInc (tag bump : String) : Option String :=
  match parseSemver tag with
  | none => none
  | some v => (semverIncTriple v bump).map renderSemver

/-- `incrementTag` (`main.ts` lines 81-87). -/
def incrementTag (tag bump : String) : Except String String :=
  match semverInc tag bump with
  | none => .error s!"failed to increment tag \x22{tag}\x22 with bump {bump}"
  | some newTag => .ok newTag

/-- The bump label `publishGitTag` reads at `main.ts` line 94: element 0
of the valid-label filtering (validation has ensured there is exactly
one). -/
def bumpLabel (pr : PullRequest) : String :=
  (pr.labels.filter (fun it => validLabels.contains it)).headD ""

/-- `publishGitTag` (`main.ts` lines 89-111), returning the produced tag
name (`""` in the skip case) or the raised error, together with the trace
of collaborator calls actually performed. -/
def publishGitTag (env : Env) : Except String String × List Call :=
  match pullRequestFromCommitSha env.associatedPRs env.sha with
  | .error e => (.error e, [Call.listPRs])
  | .ok pr =>
    match validatePullRequestLabel pr with
    | .error e => (.error e, [Call.listPRs])
    | .ok _ =>
      if bumpLabel pr = noRelease then (.ok "", [Call.listPRs])
      else
        match getLatestTag env.repoTags with
        | none =>
          (.ok env.initialTag,
            [Call.listPRs, Call.listTags, Call.createRef env.initialTag])
        | some latestTag =>
          match incrementTag latestTag (bumpLabel pr) with
          | .error e => (.error e, [Call.listPRs, Call.listTags])
          | .ok newTag =>
            (.ok newTag,
              [Call.listPRs, Call.listTags, Call.createRef newTag])

deriving instance DecidableEq for Except

/-- The source's `main` (`main.ts` lines 113-135): validate-only mode when
the payload carries a pull request, publish mode otherwise; the `catch`
block turns any raised error into a `setFailed` report carrying the
error's message. -/
def mainEntry (env : Env) : Outcome × List Call :=
  match env.payloadPullRequest with
  | some pr =>
    match validatePullRequestLabel pr with
    | .ok _ => (.success [], [Call.getPullRequest])
    | .error e => (.failed e, [Call.getPullRequest])
  | none =>
    match publishGitTag env with
    | (.ok newTag, calls) => (.success [("tag", newTag)], calls)
    | (.error e, calls) => (.failed e, calls)

/-- The error, if any, raised by the component the invocation dispatches
to (label validation in validate-only mode, the release decision in
publish mode) — the message `main`'s `catch` boundary must report. -/
def coreError (env : Env) : Option String :=
  match env.payloadPullRequest with
  | some pr =>
    match validatePullRequestLabel pr with
    | .error e => some e
    | .ok _ => none
  | none =>
    match (publishGitTag env).1 with
    | .error e => some e
    | .ok _ => none

/-- Count of a label list's entries that lie in the release-label set. -/
def releaseLabelCount (labels : List String) : Nat :=
  (labels.filter (fun it => validLabels.contains it)).length

/-! ## Properties of the comparator -/

theorem triCmp_mk (a b c d e f : Nat) :
    triCmp (a, b, c) (d, e, f) =
      (if natCmp a d ≠ 0 then natCmp a d
       else if natCmp b e ≠ 0 then natCmp b e
       else natCmp c f) := rfl

theorem natCmp_le_zero (a b : Nat) : natCmp a b ≤ 0 ↔ a ≤ b := by
  unfold natCmp; split_ifs <;> omega

theorem natCmp_eq_zero (a b : Nat) : natCmp a b = 0 ↔ a = b := by
  unfold natCmp
  split_ifs with h1 h2
  · exact ⟨fun h => absurd h (by decide), fun h => absurd h (by omega)⟩
  · exact ⟨fun h => absurd h (by decide), fun h => absurd h (by omega)⟩
  · exact ⟨fun _ => by omega, fun _ => rfl⟩

theorem natCmp_neg (a b : Nat) : natCmp b a = -natCmp a b := by
  unfold natCmp; split_ifs <;> omega

theorem triCmp_le_zero (a b c d e f : Nat) :
    triCmp (a, b, c) (d, e, f) ≤ 0 ↔
      (a < d ∨ (a = d ∧ (b < e ∨ (b = e ∧ c ≤ f)))) := by
  rw [triCmp_mk]
  split_ifs with h1 h2 <;>
    simp only [ne_eq, not_not, natCmp_eq_zero, natCmp_le_zero] at h1 ⊢ <;>
      try simp only [ne_eq, not_not, natCmp_eq_zero, natCmp_le_zero] at h2
  · omega
  · omega
  · omega

theorem triCmp_zero_iff (a b c d e f : Nat) :
    triCmp (a, b, c) (d, e, f) = 0 ↔ (a = d ∧ b = e ∧ c = f) := by
  rw [triCmp_mk]
  split_ifs with h1 h2 <;>
    simp only [ne_eq, not_not, natCmp_eq_zero] at h1 ⊢ <;>
      try simp only [ne_eq, not_not, natCmp_eq_zero] at h2
  · omega
  · omega
  · omega

theorem triCmp_neg (u v : Nat × Nat × Nat) : triCmp v u = -triCmp u v := by
  obtain ⟨a, b, c⟩ := u
  obtain ⟨d, e, f⟩ := v
  rw [triCmp_mk, triCmp_mk, natCmp_neg a d, natCmp_neg b e, natCmp_neg c f]
  split_ifs <;> omega

theorem triCmp_self (u : Nat × Nat × Nat) : triCmp u u = 0 := by
  obtain ⟨a, b, c⟩ := u
  exact (triCmp_zero_iff a b c a b c).mpr ⟨rfl, rfl, rfl⟩

theorem triCmp_eq_zero (u v : Nat × Nat × Nat) (h : triCmp u v = 0) :
    u = v := by
  obtain ⟨a, b, c⟩ := u
  obtain ⟨d, e, f⟩ := v
  rcases (triCmp_zero_iff a b c d e f).mp h with ⟨h1, h2, h3⟩
  simp [h1, h2, h3]

theorem triCmp_le_trans (u v w : Nat × Nat × Nat)
    (h1 : triCmp u v ≤ 0) (h2 : triCmp v w ≤ 0) : triCmp u w ≤ 0 := by
  obtain ⟨a, b, c⟩ := u
  obtain ⟨d, e, f⟩ := v
  obtain ⟨g, i, j⟩ := w
  rw [triCmp_le_zero] at h1 h2 ⊢
  omega

theorem semverCompare_neg (x y : String) :
    semverCompare y x = -semverCompare x y := by
  unfold semverCompare; exact triCmp_neg _ _

theorem semverCompare_self (x : String) : semverCompare x x = 0 := by
  unfold semverCompare; exact triCmp_self _

theorem semverCompare_le_trans (x y z : String)
    (h1 : semverCompare x y ≤ 0) (h2 : semverCompare y z ≤ 0) :
    semverCompare x z ≤ 0 := by
  unfold semverCompare at h1 h2 ⊢
  exact triCmp_le_trans _ _ _ h1 h2

theorem semverCompare_not_lt (x y : String)
    (h : ¬ semverCompare x y < 0) : semverCompare y x ≤ 0 := by
  rw [semverCompare_neg]; omega

/-- Two valid version strings that compare equal parse to the same
triple. -/
theorem semverCompare_eq_zero_parse (x y : String)
    (hx : semverValid x = true) (hy : semverValid y = true)
    (h : semverCompare x y = 0) : parseSemver x = parseSemver y := by
  unfold semverValid at hx hy
  obtain ⟨u, hu⟩ := Option.isSome_iff_exists.mp hx
  obtain ⟨v, hv⟩ := Option.isSome_iff_exists.mp hy
  unfold semverCompare at h
  rw [hu, hv] at h
  simp only [Option.getD_some] at h
  rw [hu, hv, triCmp_eq_zero u v h]

/-! ## Properties of the stable sort and of `getLatestTag` -/

theorem jsInsert_perm (cmp : String → String → Int) (x : String)
    (l : List String) : (jsInsert cmp x l).Perm (x :: l) := by
  induction l with
  | nil => exact List.Perm.refl _
  | cons y ys ih =>
    unfold jsInsert
    split
    · exact List.Perm.refl _
    · exact (ih.cons y).trans (List.Perm.swap x y ys)

theorem jsStableSort_perm_aux (cmp : String → String → Int)
    (l acc : List String) :
    (l.foldl (fun acc x => jsInsert cmp x acc) acc).Perm (acc ++ l) := by
  induction l generalizing acc with
  | nil => simp
  | cons x xs ih =>
    simp only [List.foldl_cons]
    refine (ih (jsInsert cmp x acc)).trans ?h
    refine (((jsInsert_perm cmp x acc).append_right xs).trans ?h2)
    exact List.perm_middle.symm

theorem jsStableSort_perm (cmp : String → String → Int) (l : List String) :
    (jsStableSort cmp l).Perm l := by
  simpa using jsStableSort_perm_aux cmp l []

theorem jsInsert_pairwise (x : String) (l : List String)
    (h : l.Pairwise (fun a b => semverCompare a b ≤ 0)) :
    (jsInsert semverCompare x l).Pairwise
      (fun a b => semverCompare a b ≤ 0) := by
  induction l with
  | nil => simp [jsInsert]
  | cons y ys ih =>
    rcases List.pairwise_cons.mp h with ⟨hy, hys⟩
    unfold jsInsert
    split
    · rename_i hlt
      refine List.pairwise_cons.mpr ⟨?ha, h⟩
      intro b hb
      rcases List.mem_cons.mp hb with hb | hb
      · subst hb; omega
      · exact semverCompare_le_trans x y b (by omega) (hy b hb)
    · rename_i hge
      refine List.pairwise_cons.mpr ⟨?hb, ih hys⟩
      intro b hb
      rcases List.mem_cons.mp
          ((jsInsert_perm semverCompare x ys).mem_iff.mp hb) with hb | hb
      · rw [hb]; exact semverCompare_not_lt x y hge
      · exact hy b hb

theorem jsStableSort_pairwise_aux (l acc : List String)
    (hacc : acc.Pairwise (fun a b => semverCompare a b ≤ 0)) :
    (l.foldl (fun acc x => jsInsert semverCompare x acc) acc).Pairwise
      (fun a b => semverCompare a b ≤ 0) := by
  induction l generalizing acc with
  | nil => exact hacc
  | cons x xs ih =>
    exact ih (jsInsert semverCompare x acc) (jsInsert_pairwise x acc hacc)

theorem jsStableSort_pairwise (l : List String) :
    (jsStableSort semverCompare l).Pairwise
      (fun a b => semverCompare a b ≤ 0) :=
  jsStableSort_pairwise_aux l [] (List.Pairwise.nil)

/-- `getLatestTag` returns `none` exactly when no tag name is a valid
semantic version. -/
theorem getLatestTag_eq_none_iff (l : List String) :
    getLatestTag l = none ↔ l.filter (fun t => semverValid t) = [] := by
  have hperm := jsStableSort_perm (fun x y => semverCompare x y)
    (l.filter (fun t => semverValid t))
  unfold getLatestTag
  cases hsort : jsStableSort (fun x y => semverCompare x y)
      (l.filter (fun t => semverValid t)) with
  | nil =>
    rw [hsort] at hperm
    simp only [hsort]
    constructor
    · intro _h; exact List.perm_nil.mp hperm.symm
    · intro _h; trivial
  | cons t rest =>
    rw [hsort] at hperm
    simp only [hsort]
    constructor
    · intro h; exact absurd h (by simp)
    · intro h
      rw [h] at hperm
      exact absurd (List.perm_nil.mp hperm) (by simp)

/-- Whatever `getLatestTag` returns is a valid member of the input and is
`semver.compare`-minimal among the valid members. -/
theorem getLatestTag_min (l : List String) (x : String)
    (hmem : x ∈ l) (hval : semverValid x = true) :
    ∃ t, getLatestTag l = some t ∧ t ∈ l ∧ semverValid t = true ∧
      semverCompare t x ≤ 0 := by
  have hxf : x ∈ l.filter (fun t => semverValid t) :=
    List.mem_filter.mpr ⟨hmem, hval⟩
  have hperm := jsStableSort_perm (fun x y => semverCompare x y)
    (l.filter (fun t => semverValid t))
  have hpw := jsStableSort_pairwise (l.filter (fun t => semverValid t))
  have hxs : x ∈ jsStableSort (fun x y => semverCompare x y)
      (l.filter (fun t => semverValid t)) := hperm.mem_iff.mpr hxf
  unfold getLatestTag
  cases hsort : jsStableSort (fun x y => semverCompare x y)
      (l.filter (fun t => semverValid t)) with
  | nil => rw [hsort] at hxs; exact absurd hxs (by simp)
  | cons t rest =>
    have htf : t ∈ l.filter (fun u => semverValid u) :=
      hperm.mem_iff.mp (by rw [hsort]; exact List.mem_cons_self t rest)
    simp only [hsort]
    refine ⟨t, rfl, (List.mem_filter.mp htf).1, (List.mem_filter.mp htf).2, ?hmin⟩
    rw [hsort] at hxs hpw
    rcases List.mem_cons.mp hxs with hx | hx
    · subst hx; rw [semverCompare_self]
    · exact (List.pairwise_cons.mp hpw).1 x hx

/-! ## Decimal rendering round-trips through `parseNumId` -/

theorem natToDigitsAux_fuel (n : Nat) : ∀ f1 f2 acc, n < f1 → n < f2 →
    natToDigitsAux f1 n acc = natToDigitsAux f2 n acc := by
  induction n using Nat.strong_induction_on with
  | _ n ih =>
    intro f1 f2 acc h1 h2
    cases f1 with
    | zero => omega
    | succ f1 =>
      cases f2 with
      | zero => omega
      | succ f2 =>
        unfold natToDigitsAux
        split_ifs with h
        · rfl
        · exact ih (n / 10) (by omega) f1 f2 _ (by omega) (by omega)

theorem natToDigitsAux_acc (fuel : Nat) : ∀ n acc,
    natToDigitsAux fuel n acc = natToDigitsAux fuel n [] ++ acc := by
  induction fuel with
  | zero => intro n acc; rfl
  | succ fuel ih =>
    intro n acc
    unfold natToDigitsAux
    split_ifs with h
    · rfl
    · rw [ih (n / 10) (digitChar (n % 10) :: acc),
        ih (n / 10) [digitChar (n % 10)], List.append_assoc]
      rfl

theorem natDigits_lt_ten (n : Nat) (h : n < 10) :
    natDigits n = [digitChar n] := by
  unfold natDigits natToDigitsAux
  rw [if_pos h, Nat.mod_eq_of_lt h]

theorem natDigits_ge_ten (n : Nat) (h : 10 ≤ n) :
    natDigits n = natDigits (n / 10) ++ [digitChar (n % 10)] := by
  show natToDigitsAux (n + 1) n [] = _
  unfold natToDigitsAux
  rw [if_neg (by omega)]
  rw [natToDigitsAux_acc n (n / 10) [digitChar (n % 10)]]
  rw [natToDigitsAux_fuel (n / 10) n (n / 10 + 1) [] (by omega) (by omega)]
  rfl

theorem digitChar_isDigit (d : Nat) (h : d < 10) :
    (digitChar d).isDigit = true := by
  interval_cases d <;> decide

theorem digitChar_toNat (d : Nat) (h : d < 10) :
    (digitChar d).toNat = 48 + d := by
  interval_cases d <;> decide

theorem digitChar_ne_zero_char (d : Nat) (h1 : 1 ≤ d) (h2 : d < 10) :
    digitChar d ≠ '0' := by
  interval_cases d <;> decide

theorem isDigit_ne_dot (c : Char) (h : c.isDigit = true) : c ≠ '.' := by
  intro he; rw [he] at h; exact absurd h (by decide)

theorem isDigit_ne_v (c : Char) (h : c.isDigit = true) : c ≠ 'v' := by
  intro he; rw [he] at h; exact absurd h (by decide)

theorem natDigits_ne_nil (n : Nat) : natDigits n ≠ [] := by
  by_cases h : n < 10
  · rw [natDigits_lt_ten n h]; simp
  · rw [natDigits_ge_ten n (by omega)]; simp

theorem natDigits_all_digit (n : Nat) :
    ∀ c ∈ natDigits n, c.isDigit = true := by
  induction n using Nat.strong_induction_on with
  | _ n ih =>
    by_cases h : n < 10
    · rw [natDigits_lt_ten n h]
      intro c hc
      rw [List.mem_singleton.mp hc]
      exact digitChar_isDigit n h
    · rw [natDigits_ge_ten n (by omega)]
      intro c hc
      rcases List.mem_append.mp hc with hc | hc
      · exact ih (n / 10) (by omega) c hc
      · rw [List.mem_singleton.mp hc]
        exact digitChar_isDigit _ (by omega)

theorem natDigits_head_ne_zero (n : Nat) (h : 1 ≤ n) :
    (natDigits n).head? ≠ some '0' := by
  induction n using Nat.strong_induction_on with
  | _ n ih =>
    by_cases h10 : n < 10
    · rw [natDigits_lt_ten n h10]
      intro he
      exact digitChar_ne_zero_char n h h10 (Option.some.inj he)
    · rw [natDigits_ge_ten n (by omega)]
      have hne := natDigits_ne_nil (n / 10)
      cases hd : natDigits (n / 10) with
      | nil => exact absurd hd hne
      | cons c cs =>
        have hih := ih (n / 10) (by omega) (by omega)
        rw [hd] at hih
        simpa using hih

theorem natDigits_foldl (n : Nat) : ∀ a : Nat,
    (natDigits n).foldl (fun acc c => acc * 10 + (c.toNat - 48)) a =
      a * 10 ^ (natDigits n).length + n := by
  induction n using Nat.strong_induction_on with
  | _ n ih =>
    intro a
    by_cases h : n < 10
    · rw [natDigits_lt_ten n h]
      simp only [List.foldl_cons, List.foldl_nil, List.length_cons,
        List.length_nil, digitChar_toNat n h]
      omega
    · rw [natDigits_ge_ten n (by omega)]
      rw [List.foldl_append, ih (n / 10) (by omega) a]
      simp only [List.foldl_cons, List.foldl_nil, List.length_append,
        List.length_cons, List.length_nil,
        digitChar_toNat (n % 10) (by omega)]
      generalize (natDigits (n / 10)).length = k
      rw [Nat.zero_add, pow_succ, Nat.add_mul, ← Nat.mul_assoc]
      omega

theorem parseNumId_natDigits (n : Nat) : parseNumId (natDigits n) = some n := by
  unfold parseNumId
  rw [if_neg (natDigits_ne_nil n)]
  rw [if_neg (by
    simp only [not_not]
    exact List.all_eq_true.mpr (natDigits_all_digit n))]
  rw [if_neg (by
    intro hcon
    rcases hcon with ⟨hhead, hlen⟩
    by_cases h10 : n < 10
    · rw [natDigits_lt_ten n h10] at hlen
      simp at hlen
    · by_cases h0 : 1 ≤ n
      · exact natDigits_head_ne_zero n h0 hhead
      · omega)]
  rw [natDigits_foldl n 0]
  simp

/-! ## `parseSemver` round-trips through `renderSemver` -/

theorem splitOnChar_ne_nil (sep : Char) (cs : List Char) :
    splitOnChar sep cs ≠ [] := by
  cases cs with
  | nil => simp [splitOnChar]
  | cons c rest =>
    unfold splitOnChar
    cases splitOnChar sep rest with
    | nil => simp
    | cons g gs => split_ifs <;> simp

theorem splitOnChar_no_sep (sep : Char) (cs : List Char)
    (h : ∀ c ∈ cs, c ≠ sep) : splitOnChar sep cs = [cs] := by
  induction cs with
  | nil => rfl
  | cons c rest ih =>
    unfold splitOnChar
    rw [ih (fun x hx => h x (List.mem_cons_of_mem c hx))]
    simp only []
    rw [if_neg (h c (List.mem_cons_self c rest))]

theorem splitOnChar_cons (sep c : Char) (cs : List Char) :
    splitOnChar sep (c :: cs) =
      match splitOnChar sep cs with
      | [] => [[]]
      | g :: gs => if c = sep then [] :: g :: gs else (c :: g) :: gs := rfl

theorem splitOnChar_append (sep : Char) (xs ys : List Char)
    (h : ∀ c ∈ xs, c ≠ sep) :
    splitOnChar sep (xs ++ sep :: ys) = xs :: splitOnChar sep ys := by
  induction xs with
  | nil =>
    show splitOnChar sep (sep :: ys) = [] :: splitOnChar sep ys
    rw [splitOnChar_cons]
    cases hs : splitOnChar sep ys with
    | nil => exact absurd hs (splitOnChar_ne_nil sep ys)
    | cons g gs => simp
  | cons x xs ih =>
    show splitOnChar sep (x :: (xs ++ sep :: ys)) = _
    rw [splitOnChar_cons, ih (fun c hc => h c (List.mem_cons_of_mem x hc))]
    simp only []
    rw [if_neg (h x (List.mem_cons_self x xs))]

theorem stripV_eq_self (cs : List Char)
    (h : ∀ c, cs.head? = some c → c ≠ 'v') : stripV cs = cs := by
  cases cs with
  | nil => rfl
  | cons c rest =>
    show (if c = 'v' then rest else c :: rest) = c :: rest
    rw [if_neg (h c rfl)]

theorem parseSemver_renderSemver (v : Nat × Nat × Nat) :
    parseSemver (renderSemver v) = some v := by
  obtain ⟨a, b, c⟩ := v
  show parseSemverChars (renderSemverChars (a, b, c)) = some (a, b, c)
  have hchars : renderSemverChars (a, b, c) =
      natDigits a ++ '.' :: (natDigits b ++ '.' :: natDigits c) := by
    simp [renderSemverChars, List.append_assoc]
  unfold parseSemverChars
  rw [hchars]
  rw [stripV_eq_self _ (fun ch hch => by
    cases hd : natDigits a with
    | nil => exact absurd hd (natDigits_ne_nil a)
    | cons d ds =>
      rw [hd] at hch
      simp only [List.cons_append, List.head?_cons] at hch
      have hdig : d.isDigit = true :=
        natDigits_all_digit a d (by rw [hd]; exact List.mem_cons_self d ds)
      rw [← Option.some.inj hch]
      exact isDigit_ne_v d hdig)]
  rw [splitOnChar_append '.' (natDigits a) _
    (fun ch hch => isDigit_ne_dot ch (natDigits_all_digit a ch hch))]
  rw [splitOnChar_append '.' (natDigits b) _
    (fun ch hch => isDigit_ne_dot ch (natDigits_all_digit b ch hch))]
  rw [splitOnChar_no_sep '.' (natDigits c)
    (fun ch hch => isDigit_ne_dot ch (natDigits_all_digit c ch hch))]
  simp only [List.map_cons, List.map_nil, parseNumId_natDigits]

/-- What `getLatestTag` returns is a valid member of its input. -/
theorem getLatestTag_some (l : List String) (t : String)
    (h : getLatestTag l = some t) : t ∈ l ∧ semverValid t = true := by
  have hperm := jsStableSort_perm (fun x y => semverCompare x y)
    (l.filter (fun u => semverValid u))
  unfold getLatestTag at h
  cases hsort : jsStableSort (fun x y => semverCompare x y)
      (l.filter (fun u => semverValid u)) with
  | nil => rw [hsort] at h; exact absurd h (by simp)
  | cons s rest =>
    rw [hsort] at h hperm
    have hst : s = t := by simpa using h
    subst hst
    have hsf : s ∈ l.filter (fun u => semverValid u) :=
      hperm.mem_iff.mp (List.mem_cons_self s rest)
    exact ⟨(List.mem_filter.mp hsf).1, (List.mem_filter.mp hsf).2⟩

/-! ## Properties of label validation -/

theorem any_iff_count_pos (labels : List String) :
    (labels.any (fun it => validLabels.contains it) = true ↔
      0 < releaseLabelCount labels) := by
  rw [List.any_eq_true]
  unfold releaseLabelCount
  rw [List.length_pos]
  constructor
  · rintro ⟨x, hx, hp⟩ hnil
    have hm : x ∈ labels.filter (fun it => validLabels.contains it) :=
      List.mem_filter.mpr ⟨hx, hp⟩
    rw [hnil] at hm
    exact absurd hm (by simp)
  · intro hne
    rcases List.exists_mem_of_ne_nil _ hne with ⟨x, hx⟩
    rcases List.mem_filter.mp hx with ⟨hmem, hp⟩
    exact ⟨x, hmem, hp⟩

/-- `validatePullRequestLabel` is the trichotomy on the count of release
labels attached to the pull request. -/
theorem validatePullRequestLabel_eq (labels : List String) :
    validatePullRequestLabel ⟨labels⟩ =
      (if releaseLabelCount labels = 0 then Except.error missingLabelMsg
       else if releaseLabelCount labels = 1 then Except.ok ()
       else Except.error exactlyOneLabelMsg) := by
  show (if ¬ labels.any (fun it => validLabels.contains it) = true then
      Except.error missingLabelMsg
    else if (labels.filter (fun it => validLabels.contains it)).length ≠ 1
      then Except.error exactlyOneLabelMsg
    else Except.ok ()) = _
  have hcount : (labels.filter (fun it => validLabels.contains it)).length =
      releaseLabelCount labels := rfl
  by_cases h0 : releaseLabelCount labels = 0
  · have hany : ¬ labels.any (fun it => validLabels.contains it) = true := by
      rw [any_iff_count_pos]; omega
    rw [if_pos hany, if_pos h0]
  · have hany : labels.any (fun it => validLabels.contains it) = true := by
      rw [any_iff_count_pos]; omega
    rw [if_neg (not_not_intro hany), if_neg h0]
    by_cases h1 : releaseLabelCount labels = 1
    · rw [if_neg (by rw [hcount]; omega), if_pos h1]
    · rw [if_pos (by rw [hcount]; omega), if_neg h1]

/-! ## Claims about tag selection: C1, C6, C7 -/

/-- C1: the claim says the selected "latest" tag is the semver-maximum of
the valid tags, `"2.0.0"` on the spec's own example. The code instead
sorts ascending with `semver.compare` and returns element `[0]`, the
minimum: on `["1.2.3", "1.3.0", "v-bad", "2.0.0"]` it selects `"1.2.3"`,
not `"2.0.0"`. This theorem evaluates the embedded code on that input. -/
theorem claim_c1_code_eval :
    getLatestTag ["1.2.3", "1.3.0", "v-bad", "2.0.0"] = some "1.2.3" ∧
    getLatestTag ["1.2.3", "1.3.0", "v-bad", "2.0.0"] ≠ some "2.0.0" := by
  constructor <;> decide

/-- C6 fails as stated: `"1.2.3"` and `"v1.2.3"` are distinct tag names
that parse as equal semantic versions, the comparator ties on them, and
the stable sort then keeps them in input order — so the selected name
depends on the order of the input sequence. -/
theorem claim_c6_counterexample :
    (["1.2.3", "v1.2.3"] : List String).Perm ["v1.2.3", "1.2.3"] ∧
    getLatestTag ["1.2.3", "v1.2.3"] ≠ getLatestTag ["v1.2.3", "1.2.3"] :=
  ⟨List.Perm.swap "v1.2.3" "1.2.3" [], by decide⟩

/-- C6 (amended): latest-tag selection is a total deterministic function,
and considered up to semantic-version equality of the result it is a
function of the input as a set: for every two permuted tag-name sequences
it returns "none" on one iff it does on the other, and the selected tags
parse to the same version triple. (The literal name may differ only when
distinct names — such as with and without a leading `v` — denote equal
versions.) -/
theorem claim_c6_amended (l1 l2 : List String) (hperm : l1.Perm l2) :
    ((getLatestTag l1).isSome ↔ (getLatestTag l2).isSome) ∧
    (getLatestTag l1).bind parseSemver =
      (getLatestTag l2).bind parseSemver := by
  cases hg1 : getLatestTag l1 with
  | none =>
    have hf1 := (getLatestTag_eq_none_iff l1).mp hg1
    have hf2 : l2.filter (fun t => semverValid t) = [] := by
      have hpf := hperm.filter (fun t => semverValid t)
      rw [hf1] at hpf
      exact List.perm_nil.mp hpf.symm
    have hg2 : getLatestTag l2 = none := (getLatestTag_eq_none_iff l2).mpr hf2
    rw [hg2]
    simp
  | some t1 =>
    rcases getLatestTag_some l1 t1 hg1 with ⟨hmem1, hval1⟩
    rcases getLatestTag_min l2 t1 (hperm.mem_iff.mp hmem1) hval1 with
      ⟨t2, hg2, hmem2, hval2, hc21⟩
    rcases getLatestTag_min l1 t2 (hperm.mem_iff.mpr hmem2) hval2 with
      ⟨t1', hg1', _, _, hc12⟩
    rw [hg1] at hg1'
    have ht1 : t1' = t1 := (Option.some.inj hg1').symm
    subst ht1
    have hzero : semverCompare t1' t2 = 0 := by
      have hneg := semverCompare_neg t1' t2
      omega
    have hparse := semverCompare_eq_zero_parse t1' t2 hval1 hval2 hzero
    rw [hg2]
    constructor
    · simp
    · simp [hparse]

/-- Witness for C6 (amended) at a concrete permuted pair. -/
theorem claim_c6_amended_witness :
    ((getLatestTag ["1.2.3", "2.0.0"]).isSome ↔
      (getLatestTag ["2.0.0", "1.2.3"]).isSome) ∧
    (getLatestTag ["1.2.3", "2.0.0"]).bind parseSemver =
      (getLatestTag ["2.0.0", "1.2.3"]).bind parseSemver :=
  claim_c6_amended ["1.2.3", "2.0.0"] ["2.0.0", "1.2.3"]
    (List.Perm.swap "2.0.0" "1.2.3" [])

/-- C7: tag names that do not parse as valid semantic versions are
silently dropped — selection over any list equals selection over its
valid sublist, and the result is an error-free `none` exactly when no
valid semver tag exists. -/
theorem claim_c7 (l : List String) :
    getLatestTag l = getLatestTag (l.filter (fun t => semverValid t)) ∧
    (getLatestTag l = none ↔ l.filter (fun t => semverValid t) = []) := by
  constructor
  · unfold getLatestTag
    have hid : (l.filter (fun t => semverValid t)).filter
        (fun t => semverValid t) = l.filter (fun t => semverValid t) :=
      List.filter_eq_self.mpr (fun a ha => (List.mem_filter.mp ha).2)
    rw [hid]
  · exact getLatestTag_eq_none_iff l

/-! ## Claim about label validation: C2 -/

/-- C2: with exactly one release label validation succeeds (and the bump
the decision later uses is that entry); with zero it fails with the
missing-label error; with two or more it fails with the ambiguous-label
error; labels outside the enumerated set never affect the outcome. -/
theorem claim_c2 (labels : List String) :
    (releaseLabelCount labels = 0 →
      validatePullRequestLabel ⟨labels⟩ = .error missingLabelMsg) ∧
    (releaseLabelCount labels = 1 →
      validatePullRequestLabel ⟨labels⟩ = .ok ()) ∧
    (2 ≤ releaseLabelCount labels →
      validatePullRequestLabel ⟨labels⟩ = .error exactlyOneLabelMsg) ∧
    validatePullRequestLabel ⟨labels⟩ =
      validatePullRequestLabel
        ⟨labels.filter (fun it => validLabels.contains it)⟩ ∧
    (∀ l, labels.filter (fun it => validLabels.contains it) = [l] →
      bumpLabel ⟨labels⟩ = l) := by
  refine ⟨?h0, ?h1, ?h2, ?hinv, ?hbump⟩
  case h0 => intro h; rw [validatePullRequestLabel_eq, if_pos h]
  case h1 =>
    intro h
    rw [validatePullRequestLabel_eq, if_neg (by omega), if_pos h]
  case h2 =>
    intro h
    rw [validatePullRequestLabel_eq, if_neg (by omega), if_neg (by omega)]
  case hinv =>
    rw [validatePullRequestLabel_eq, validatePullRequestLabel_eq]
    have hid : (labels.filter (fun it => validLabels.contains it)).filter
        (fun it => validLabels.contains it) =
        labels.filter (fun it => validLabels.contains it) :=
      List.filter_eq_self.mpr (fun a ha => (List.mem_filter.mp ha).2)
    have hc : releaseLabelCount
        (labels.filter (fun it => validLabels.contains it)) =
        releaseLabelCount labels := by
      unfold releaseLabelCount
      rw [hid]
    rw [hc]
  case hbump =>
    intro l hl
    unfold bumpLabel
    show (labels.filter (fun it => validLabels.contains it)).headD "" = l
    rw [hl]
    rfl

/-- Witness for C2: concrete label sets realising each cardinality. -/
theorem claim_c2_witness :
    validatePullRequestLabel ⟨["documentation"]⟩ = .error missingLabelMsg ∧
    validatePullRequestLabel ⟨["major", "documentation"]⟩ = .ok () ∧
    validatePullRequestLabel ⟨["major", "patch"]⟩ =
      .error exactlyOneLabelMsg :=
  ⟨(claim_c2 ["documentation"]).1 (by decide),
   (claim_c2 ["major", "documentation"]).2.1 (by decide),
   (claim_c2 ["major", "patch"]).2.2.1 (by decide)⟩

/-! ## Properties of the release decision -/

theorem validatePullRequestLabel_count (pr : PullRequest) :
    validatePullRequestLabel pr =
      (if releaseLabelCount pr.labels = 0 then Except.error missingLabelMsg
       else if releaseLabelCount pr.labels = 1 then Except.ok ()
       else Except.error exactlyOneLabelMsg) := by
  obtain ⟨labels⟩ := pr
  exact validatePullRequestLabel_eq labels

/-- In the skip case (`no-release` is the single release label) the
decision returns the empty tag after the sole pull-request lookup. -/
theorem publishGitTag_skip (env : Env) (pr : PullRequest)
    (h1 : env.associatedPRs = [pr])
    (h2 : pr.labels.filter (fun it => validLabels.contains it) =
      [noRelease]) :
    publishGitTag env = (.ok "", [Call.listPRs]) := by
  have hres : pullRequestFromCommitSha env.associatedPRs env.sha = .ok pr := by
    rw [h1]; rfl
  have hcount : releaseLabelCount pr.labels = 1 := by
    unfold releaseLabelCount; rw [h2]; rfl
  have hval : validatePullRequestLabel pr = .ok () := by
    rw [validatePullRequestLabel_count, if_neg (by omega), if_pos hcount]
  have hbump : bumpLabel pr = noRelease := by
    unfold bumpLabel; rw [h2]; rfl
  unfold publishGitTag
  rw [hres]
  simp only []
  rw [hval]
  simp only []
  rw [hbump]
  simp

/-- C3: when the resolved pull request's release label is `no-release`
the decision is the skip (`""`, published by nothing), reached after the
pull-request lookup alone: the tag listing is never queried and no ref is
ever created. -/
theorem claim_c3 (env : Env) (pr : PullRequest)
    (h1 : env.associatedPRs = [pr])
    (h2 : pr.labels.filter (fun it => validLabels.contains it) =
      [noRelease]) :
    publishGitTag env = (.ok "", [Call.listPRs]) ∧
    Call.listTags ∉ (publishGitTag env).2 ∧
    ∀ t, Call.createRef t ∉ (publishGitTag env).2 := by
  have hskip := publishGitTag_skip env pr h1 h2
  refine ⟨hskip, ?h3, ?h4⟩
  · rw [hskip]; simp
  · intro t; rw [hskip]; simp

def prSkip : PullRequest := ⟨["no-release"]⟩

def envSkip : Env := ⟨"0a1b2c", [prSkip], ["1.0.0"], "0.1.0", none⟩

/-- Witness for C3 at a concrete skip environment. -/
theorem claim_c3_witness :
    publishGitTag envSkip = (.ok "", [Call.listPRs]) ∧
    Call.listTags ∉ (publishGitTag envSkip).2 ∧
    ∀ t, Call.createRef t ∉ (publishGitTag envSkip).2 :=
  claim_c3 envSkip prSkip rfl (by decide)

/-- C10: a merge-mode invocation whose resolved pull request carries the
`no-release` label (and passes validation) completes successfully and
still sets the named output `tag`, to the empty string. -/
theorem claim_c10 (env : Env) (pr : PullRequest)
    (h0 : env.payloadPullRequest = none)
    (h1 : env.associatedPRs = [pr])
    (h2 : noRelease ∈ pr.labels)
    (h3 : releaseLabelCount pr.labels = 1) :
    mainEntry env = (.success [("tag", "")], [Call.listPRs]) := by
  have hf : pr.labels.filter (fun it => validLabels.contains it) =
      [noRelease] := by
    have hmem : noRelease ∈
        pr.labels.filter (fun it => validLabels.contains it) :=
      List.mem_filter.mpr ⟨h2, by decide⟩
    unfold releaseLabelCount at h3
    cases hl : pr.labels.filter (fun it => validLabels.contains it) with
    | nil => rw [hl] at hmem; exact absurd hmem (by simp)
    | cons x xs =>
      rw [hl] at h3 hmem
      have hxs : xs = [] := by
        simp only [List.length_cons] at h3
        exact List.length_eq_zero.mp (by omega)
      subst hxs
      have hx : noRelease = x := by simpa using hmem
      rw [← hx]
  have hpub := publishGitTag_skip env pr h1 hf
  unfold mainEntry
  rw [h0]
  simp only []
  rw [hpub]

/-- Witness for C10 at a concrete skip environment. -/
theorem claim_c10_witness :
    mainEntry envSkip = (.success [("tag", "")], [Call.listPRs]) :=
  claim_c10 envSkip prSkip rfl rfl (by decide) (by decide)

/-- C5: zero associated pull requests fail with the
no-associated-pull-request error and two or more with the
ambiguous-associated-pull-request error; in both cases the trace stops at
the pull-request lookup, so the Tag Publisher is never invoked. -/
theorem claim_c5 (env : Env) :
    (env.associatedPRs = [] →
      publishGitTag env =
        (.error (noPullRequestMsg env.sha), [Call.listPRs]) ∧
      ∀ t, Call.createRef t ∉ (publishGitTag env).2) ∧
    (2 ≤ env.associatedPRs.length →
      publishGitTag env =
        (.error (multiplePullRequestsMsg env.sha), [Call.listPRs]) ∧
      ∀ t, Call.createRef t ∉ (publishGitTag env).2) := by
  constructor
  · intro h
    have hres : pullRequestFromCommitSha env.associatedPRs env.sha =
        .error (noPullRequestMsg env.sha) := by rw [h]; rfl
    have heq : publishGitTag env =
        (.error (noPullRequestMsg env.sha), [Call.listPRs]) := by
      unfold publishGitTag
      rw [hres]
    exact ⟨heq, fun t => by rw [heq]; simp⟩
  · intro h
    cases hl : env.associatedPRs with
    | nil => rw [hl] at h; simp at h
    | cons a rest =>
      cases hr : rest with
      | nil => rw [hl, hr] at h; simp at h
      | cons b rest2 =>
        have hres : pullRequestFromCommitSha env.associatedPRs env.sha =
            .error (multiplePullRequestsMsg env.sha) := by
          rw [hl, hr]; rfl
        have heq : publishGitTag env =
            (.error (multiplePullRequestsMsg env.sha), [Call.listPRs]) := by
          unfold publishGitTag
          rw [hres]
        exact ⟨heq, fun t => by rw [heq]; simp⟩

def envNoPR : Env := ⟨"feedc0de", [], [], "0.1.0", none⟩

def envTwoPRs : Env :=
  ⟨"feedc0de", [⟨["major"]⟩, ⟨["minor"]⟩], [], "0.1.0", none⟩

/-- Witness for C5 at concrete zero- and two-pull-request environments. -/
theorem claim_c5_witness :
    (publishGitTag envNoPR =
        (.error (noPullRequestMsg envNoPR.sha), [Call.listPRs]) ∧
      ∀ t, Call.createRef t ∉ (publishGitTag envNoPR).2) ∧
    (publishGitTag envTwoPRs =
        (.error (multiplePullRequestsMsg envTwoPRs.sha), [Call.listPRs]) ∧
      ∀ t, Call.createRef t ∉ (publishGitTag envTwoPRs).2) :=
  ⟨(claim_c5 envNoPR).1 rfl, (claim_c5 envTwoPRs).2 (by decide)⟩

/-- C4: in merge mode, when no existing tag parses as a valid semantic
version, the published version is the `initial_tag` input taken verbatim
(no increment), and the ref created points at it. -/
theorem claim_c4 (env : Env) (pr : PullRequest) (l : String)
    (h0 : env.associatedPRs = [pr])
    (h1 : pr.labels.filter (fun it => validLabels.contains it) = [l])
    (h2 : l ≠ noRelease)
    (h3 : env.repoTags.filter (fun t => semverValid t) = []) :
    publishGitTag env =
      (.ok env.initialTag,
        [Call.listPRs, Call.listTags, Call.createRef env.initialTag]) := by
  have hres : pullRequestFromCommitSha env.associatedPRs env.sha = .ok pr := by
    rw [h0]; rfl
  have hcount : releaseLabelCount pr.labels = 1 := by
    unfold releaseLabelCount; rw [h1]; rfl
  have hval : validatePullRequestLabel pr = .ok () := by
    rw [validatePullRequestLabel_count, if_neg (by omega), if_pos hcount]
  have hbump : bumpLabel pr = l := by
    unfold bumpLabel; rw [h1]; rfl
  have hlatest : getLatestTag env.repoTags = none :=
    (getLatestTag_eq_none_iff _).mpr h3
  unfold publishGitTag
  rw [hres]
  simp only []
  rw [hval]
  simp only []
  rw [hbump, if_neg h2, hlatest]

def prMinor : PullRequest := ⟨["minor"]⟩

def envBootstrap : Env := ⟨"0a1b2c", [prMinor], [], "0.1.0", none⟩

/-- Witness for C4: no existing tags, `initial_tag = "0.1.0"`, a
minor-labelled pull request: the published version is `"0.1.0"`. -/
theorem claim_c4_witness :
    publishGitTag envBootstrap =
      (.ok "0.1.0", [Call.listPRs, Call.listTags, Call.createRef "0.1.0"]) :=
  claim_c4 envBootstrap prMinor "minor" rfl (by decide) (by decide) rfl

/-! ## Claim about version increment: C8 -/

theorem natCmp_lt_zero (a b : Nat) : natCmp a b < 0 ↔ a < b := by
  unfold natCmp; split_ifs <;> omega

theorem triCmp_lt_zero (a b c d e f : Nat) :
    triCmp (a, b, c) (d, e, f) < 0 ↔
      (a < d ∨ (a = d ∧ (b < e ∨ (b = e ∧ c < f)))) := by
  rw [triCmp_mk]
  split_ifs with h1 h2 <;>
    simp only [ne_eq, not_not, natCmp_eq_zero, natCmp_lt_zero] at h1 ⊢ <;>
      try simp only [ne_eq, not_not, natCmp_eq_zero, natCmp_lt_zero] at h2
  · omega
  · omega
  · omega

theorem incrementTag_of_parse (t : String) (v w : Nat × Nat × Nat)
    (bump : String) (hv : parseSemver t = some v)
    (hw : semverIncTriple v bump = some w) :
    incrementTag t bump = .ok (renderSemver w) := by
  unfold incrementTag semverInc
  rw [hv]
  simp only []
  rw [hw]
  rfl

theorem semverCompare_of_parse (t s : String) (v w : Nat × Nat × Nat)
    (hv : parseSemver t = some v) (hw : parseSemver s = some w) :
    semverCompare t s = triCmp v w := by
  unfold semverCompare; rw [hv, hw]; rfl

/-- C8: for every valid base version and bump in {patch, minor, major},
the increment succeeds, changes exactly the targeted component, zeroes
the less-significant ones, and the produced version string is strictly
greater than the base under the comparator tag selection uses. -/
theorem claim_c8 (t : String) (v : Nat × Nat × Nat) (bump : String)
    (hv : parseSemver t = some v)
    (hb : bump = patch ∨ bump = minor ∨ bump = major) :
    ∃ w, semverIncTriple v bump = some w ∧
      incrementTag t bump = .ok (renderSemver w) ∧
      parseSemver (renderSemver w) = some w ∧
      semverCompare t (renderSemver w) < 0 ∧
      (bump = patch → w = (v.1, v.2.1, v.2.2 + 1)) ∧
      (bump = minor → w = (v.1, v.2.1 + 1, 0)) ∧
      (bump = major → w = (v.1 + 1, 0, 0)) := by
  obtain ⟨a, b, c⟩ := v
  rcases hb with hb | hb | hb <;> subst hb
  · have hw : semverIncTriple (a, b, c) patch = some (a, b, c + 1) := by
      unfold semverIncTriple
      rw [if_neg (by decide), if_neg (by decide), if_pos rfl]
    have hr := parseSemver_renderSemver (a, b, c + 1)
    refine ⟨(a, b, c + 1), hw, incrementTag_of_parse t _ _ _ hv hw, hr,
      ?_, fun _ => rfl, fun h => absurd h (by decide),
      fun h => absurd h (by decide)⟩
    rw [semverCompare_of_parse t _ _ _ hv hr, triCmp_lt_zero]
    omega
  · have hw : semverIncTriple (a, b, c) minor = some (a, b + 1, 0) := by
      unfold semverIncTriple
      rw [if_neg (by decide), if_pos rfl]
    have hr := parseSemver_renderSemver (a, b + 1, 0)
    refine ⟨(a, b + 1, 0), hw, incrementTag_of_parse t _ _ _ hv hw, hr,
      ?_, fun h => absurd h (by decide), fun _ => rfl,
      fun h => absurd h (by decide)⟩
    rw [semverCompare_of_parse t _ _ _ hv hr, triCmp_lt_zero]
    omega
  · have hw : semverIncTriple (a, b, c) major = some (a + 1, 0, 0) := by
      unfold semverIncTriple
      rw [if_pos rfl]
    have hr := parseSemver_renderSemver (a + 1, 0, 0)
    refine ⟨(a + 1, 0, 0), hw, incrementTag_of_parse t _ _ _ hv hw, hr,
      ?_, fun h => absurd h (by decide), fun h => absurd h (by decide),
      fun _ => rfl⟩
    rw [semverCompare_of_parse t _ _ _ hv hr, triCmp_lt_zero]
    omega

/-- Witness for C8: the spec's example, latest tag `"1.4.2"` bumped with
`major` yields `"2.0.0"`. -/
theorem claim_c8_witness :
    incrementTag "1.4.2" "major" = .ok "2.0.0" ∧
    (∃ w, semverIncTriple (1, 4, 2) "major" = some w ∧
      incrementTag "1.4.2" "major" = .ok (renderSemver w) ∧
      parseSemver (renderSemver w) = some w ∧
      semverCompare "1.4.2" (renderSemver w) < 0 ∧
      ("major" = patch → w = (1, 4, 3)) ∧
      ("major" = minor → w = (1, 5, 0)) ∧
      ("major" = major → w = (2, 0, 0))) :=
  ⟨by decide, claim_c8 "1.4.2" (1, 4, 2) "major" (by decide) (by decide)⟩

/-! ## Claim about the invocation boundary: C9 -/

/-- C9: the invocation boundary never lets an error escape: every run
either succeeds, or reports failure with a message equal to the
description of the error raised by the dispatched component. -/
theorem claim_c9 (env : Env) :
    (∃ outs calls, mainEntry env = (Outcome.success outs, calls) ∧
      coreError env = none) ∨
    (∃ e calls, mainEntry env = (Outcome.failed e, calls) ∧
      coreError env = some e) := by
  unfold mainEntry coreError
  cases env.payloadPullRequest with
  | some pr =>
    cases hval : validatePullRequestLabel pr with
    | ok u =>
      cases u
      exact Or.inl ⟨[], [Call.getPullRequest], by simp [hval], by simp [hval]⟩
    | error e =>
      exact Or.inr ⟨e, [Call.getPullRequest], by simp [hval], by simp [hval]⟩
  | none =>
    cases hp : publishGitTag env with
    | mk res calls =>
      cases res with
      | ok newTag =>
        exact Or.inl ⟨[("tag", newTag)], calls, by simp [hp], by simp [hp]⟩
      | error e =>
        exact Or.inr ⟨e, calls, by simp [hp], by simp [hp]⟩

example : parseSemver "1.2.3" = some (1, 2, 3) := by decide
example : parseSemver "v1.2.3" = some (1, 2, 3) := by decide
example : parseSemver "v-bad" = none := by decide
example : parseSemver "01.2.3" = none := by decide
example : getLatestTag ["1.2.3", "1.3.0", "v-bad", "2.0.0"] = some "1.2.3" := by decide
example : getLatestTag ["1.2.3", "v1.2.3"] = some "1.2.3" := by decide
example : getLatestTag ["v1.2.3", "1.2.3"] = some "v1.2.3" := by decide
example : incrementTag "1.4.2" "major" = .ok "2.0.0" := by decide
example : incrementTag "1.4.2" "minor" = .ok "1.5.0" := by decide
example : missingLabelMsg = "Please set one of the following label : patch, minor, major, no-release" := by decide
